import Mathlib

/-!
Verification of the Oxid OS memory-management core.

This file gives a shallow embedding, in Lean 4, of the memory-management
subsystem of the Oxid OS kernel (physical frame bitmap allocator, 4-level
page tables with a self-referencing recursive mapping, virtual memory
manager, kernel heap allocator with free/used region lists, and the
page-fault policy), together with theorems settling the specification
claims about that code.

Machine integers (Rust `usize`) are modelled as `Nat`; 64-bit wraparound
is applied explicitly (`wrap64`) exactly where the Rust code can overflow
in release mode.  Functions that can panic in Rust (index out of bounds,
`unwrap`, explicit `panic!`) are modelled as `Option`-valued, with `none`
standing for the panic.  Raw-pointer linked structures are modelled at the
level the claims speak about (lists of regions / radix trees of entries),
following the design note of the specification that the self-referencing
page-table addressing is to be abstracted as a pure index-path calculator.
-/

/-! ## 64-bit machine arithmetic helpers -/

/-- Modulus of the 64-bit address space (2 to the 64th power). -/
def U64_MOD : Nat := 18446744073709551616

/-- The largest 64-bit value, `usize::MAX` (2 to the 64th power minus 1). -/
def U64_MAX : Nat := 18446744073709551615

/-- Truncation to 64 bits, the implicit wraparound of Rust release builds. -/
def wrap64 (n : Nat) : Nat := n % U64_MOD

/-- Bitwise complement on 64 bits (Rust `!x` on `usize`), valid for `m < 2^64`. -/
def compl64 (m : Nat) : Nat := U64_MAX ^^^ m

/-!  ## `src/mem/bitwise.rs` — the `BitWise` trait

The trait is implemented for all unsigned integer types by the same macro;
we model the `usize` instance, the only one the memory core uses.  -/

/-- From `BitWise::is_clear`: `*self & (1 << bit_num) == 0`. -/
def is_clear (w b : Nat) : Bool := w &&& (1 <<< b) == 0

/-- From `BitWise::is_set`: `!self.is_clear(bit_num)`. -/
def is_set (w b : Nat) : Bool := ! is_clear w b

/-- From `BitWise::set_bit`: `*self |= 1 << bit_num`. -/
def set_bit (w b : Nat) : Nat := w ||| (1 <<< b)

/-- From `BitWise::clear_bit`: `*self &= !(1 << bit_num)`. -/
def clear_bit (w b : Nat) : Nat := w &&& compl64 (1 <<< b)

/-- From `BitWise::write_bit`: set the bit when `value` is true, clear it otherwise. -/
def write_bit (w b : Nat) (value : Bool) : Nat :=
  if value then set_bit w b else clear_bit w b

/-! ## `src/mem/align.rs` -/

/-- From `align_higher`: `(addr + (alignment - 1)) & !(alignment - 1)`.
Both the subtraction `alignment - 1` and the addition wrap on 64 bits in a
Rust release build, which is made explicit here. -/
def align_higher (addr alignment : Nat) : Nat :=
  wrap64 (addr + wrap64 (alignment + U64_MAX)) &&& compl64 (wrap64 (alignment + U64_MAX))

/-- From `align_lower`: `addr - (addr % alignment)`.  (For `alignment = 0` the
Rust `%` panics; `Nat` yields `addr % 0 = addr`, so the result is 0 — the
memory core only ever calls this with nonzero power-of-two alignments.) -/
def align_lower (addr alignment : Nat) : Nat :=
  addr - (addr % alignment)

/-! ## `src/mem/region.rs` — `Region` -/

/-- A memory region: a starting address and a size in bytes. -/
structure Region where
  addr : Nat
  size : Nat
deriving DecidableEq, Repr

/-- From `Region::end_addr`: `self.addr + self.size`. -/
def Region.end_addr (r : Region) : Nat := r.addr + r.size

/-- From `Region::new`: asserts `start_addr <= end_addr`, then stores the start
address and the difference as the size.  The assertion is modelled by an
`Option` (`none` is the panic). -/
def Region.new (start_addr end_addr : Nat) : Option Region :=
  if start_addr ≤ end_addr then some ⟨start_addr, end_addr - start_addr⟩ else none

/-- From `Region::new_sized`: literally stores the address and size. -/
def Region.new_sized (addr size : Nat) : Region := ⟨addr, size⟩

/-- From `Region::new_aligned`: computes the aligned start (higher) and aligned
end (lower), asserts `aligned_start <= aligned_end`, but then constructs the
region from the ORIGINAL unaligned `start_addr`/`end_addr` (the alignment work
is discarded — the specification notes this as a likely bug, and we model the
code as written). -/
def Region.new_aligned (start_addr end_addr alignment : Nat) : Option Region :=
  if align_higher start_addr alignment ≤ align_lower end_addr alignment then
    some ⟨start_addr, end_addr - start_addr⟩
  else
    none

/-- From `Region::includes`: `self.addr >= addr && self.addr < self.end_addr()`.
The region's OWN start address is compared on both sides — this is the
behaviour claim C9 is about. -/
def Region.includes (r : Region) (addr : Nat) : Bool :=
  decide (r.addr ≥ addr) && decide (r.addr < r.end_addr)

/-- From `Region::fits`: `self.includes(other.addr) && self.includes(other.end_addr())`. -/
def Region.fits (r other_region : Region) : Bool :=
  r.includes other_region.addr && r.includes other_region.end_addr

/-! ## `src/mem/frame_alloc/bitmap.rs` — the bitmap frame allocator -/

/-- From `frame_alloc::ALIGNMENT` (4 KiB). -/
def ALIGNMENT : Nat := 0x1000

/-- From `frame_alloc::FRAME_SIZE` (4 KiB). -/
def FRAME_SIZE : Nat := 0x1000

/-- From `NUM_BITS_PER_FIELD`: `size_of::<usize>() * 8 = 64`. -/
def NUM_BITS_PER_FIELD : Nat := 64

/-- The bitmap allocator state.  The `&'static mut [usize]` bit array is
modelled as a list of 64-bit words. -/
structure BitMap where
  frames_start : Nat
  frames_count : Nat
  map : List Nat
  first_free : Nat
deriving DecidableEq, Repr

/-- From `BitMapResult` in `bitmap.rs`. -/
inductive BitMapResult where
  | Allocated (frame_number : Nat)
  | AlreadyUsed
  | Full
  | InvalidFrameNum
deriving DecidableEq, Repr

/-- From `has_free`: the bitfield differs from `usize::MAX`. -/
def has_free (bitfield : Nat) : Bool := bitfield != U64_MAX

/-- From `get_free`: scan bit positions 0..64 and return the first clear one. -/
def get_free (bitfield : Nat) : Option Nat :=
  (List.range 64).find? (fun bit_num => is_clear bitfield bit_num)

/-- Loop body of `BitMap::alloc`: scan words from index `i` upward.  The result
distinguishes finding a free bit, exhausting the words (`full`), and the
`unwrap` panic on `get_free` (unreachable for 64-bit words, see
`has_free_get_free_isSome`). -/
inductive AllocScan where
  | found (map : List Nat) (first_free frame_number : Nat)
  | full
  | panicked
deriving DecidableEq, Repr

/-- The `for i in self.first_free..self.map.len()` loop of `BitMap::alloc`,
with explicit fuel (the loop runs at most `map.length` iterations). -/
def alloc_scan (map : List Nat) (i fuel : Nat) : AllocScan :=
  match fuel with
  | 0 => .full
  | fuel + 1 =>
    if h : i < map.length then
      let w := map.get ⟨i, h⟩
      if has_free w then
        match get_free w with
        | some free_bit_num =>
          .found (map.set i (set_bit w free_bit_num)) i (i * NUM_BITS_PER_FIELD + free_bit_num)
        | none => .panicked
      else
        alloc_scan map (i + 1) fuel
    else .full

/-- From `BitMap::alloc`: find the first free frame starting the word scan at
`first_free`, set its bit, record the word index in `first_free`, and return
the frame number.  `none` is the (unreachable) `unwrap` panic. -/
def BitMap.alloc (bm : BitMap) : Option (BitMap × BitMapResult) :=
  match alloc_scan bm.map bm.first_free bm.map.length with
  | .found map' ff n => some ({ bm with map := map', first_free := ff }, .Allocated n)
  | .full => some (bm, .Full)
  | .panicked => none

/-- From `BitMap::alloc_frame_num`: allocate one specific frame number.
`none` models the panic of the Rust slice indexing when the word index falls
beyond the (floor-truncated) bit array. -/
def BitMap.alloc_frame_num (bm : BitMap) (frame_num : Nat) : Option (BitMap × BitMapResult) :=
  if frame_num ≥ bm.frames_count then
    some (bm, .InvalidFrameNum)
  else
    let map_idx := frame_num / NUM_BITS_PER_FIELD
    let bit_num := frame_num % NUM_BITS_PER_FIELD
    if h : map_idx < bm.map.length then
      let w := bm.map.get ⟨map_idx, h⟩
      if is_clear w bit_num then
        some ({ bm with map := bm.map.set map_idx (set_bit w bit_num) }, .Allocated frame_num)
      else
        some (bm, .AlreadyUsed)
    else none

/-- From `BitMap::dealloc`: clear the frame's bit and rewind `first_free` when
needed; out-of-range frame numbers are ignored.  `none` models the panic of
the Rust slice indexing when `frame_num < frames_count` but the word index
falls beyond the (floor-truncated) bit array. -/
def BitMap.dealloc (bm : BitMap) (frame_num : Nat) : Option BitMap :=
  if frame_num < bm.frames_count then
    if h : frame_num / NUM_BITS_PER_FIELD < bm.map.length then
      some { bm with
             map := bm.map.set (frame_num / NUM_BITS_PER_FIELD)
               (clear_bit (bm.map.get ⟨frame_num / NUM_BITS_PER_FIELD, h⟩)
                 (frame_num % NUM_BITS_PER_FIELD)),
             first_free := if bm.first_free > frame_num / NUM_BITS_PER_FIELD
                           then frame_num / NUM_BITS_PER_FIELD
                           else bm.first_free }
    else none
  else some bm

/-- From `BitMap::addr_to_frame`: range-check the address, then divide.
The `Result` is an `Option` (`none` is `Err`). -/
def BitMap.addr_to_frame (bm : BitMap) (addr : Nat) : Option Nat :=
  if addr < bm.frames_start ∨ addr > bm.frames_start + bm.frames_count * FRAME_SIZE then
    none
  else
    some ((addr - bm.frames_start) / FRAME_SIZE)

/-- From `BitMap::frame_to_addr`: range-check the frame number, then scale. -/
def BitMap.frame_to_addr (bm : BitMap) (frame_num : Nat) : Option Nat :=
  if frame_num < bm.frames_count then
    some (bm.frames_start + frame_num * FRAME_SIZE)
  else none

/-- From `BitMap::get_mappable_region`. -/
def BitMap.get_mappable_region (bm : BitMap) : Region :=
  Region.new_sized bm.frames_start (bm.frames_count * FRAME_SIZE)

/-- From `BitMap::new`: align the usable region (via the `Region::new_aligned`
that in fact returns the unaligned region), compute the bitmap size in bytes
(at least one), place the first allocatable frame above the bitmap, and build
the (purged, all-zero) word array of `num_frames / 64` words.  `none` is the
`assert!` panic inside `Region::new_aligned`. -/
def BitMap.new (usable_region : Region) : Option BitMap :=
  match Region.new_aligned usable_region.addr usable_region.end_addr ALIGNMENT with
  | none => none
  | some aligned_usable_region =>
    let aligned_start_addr := aligned_usable_region.addr
    let aligned_end_addr := aligned_usable_region.end_addr
    let bitmap_size0 := ((aligned_end_addr - aligned_start_addr) / FRAME_SIZE) / 8
    let bitmap_size := if bitmap_size0 = 0 then 1 else bitmap_size0
    let start_frames := align_higher (aligned_start_addr + bitmap_size) ALIGNMENT
    let num_frames := (aligned_end_addr - start_frames) / FRAME_SIZE
    some { frames_start := start_frames,
           frames_count := num_frames,
           map := List.replicate (num_frames / NUM_BITS_PER_FIELD) 0,
           first_free := 0 }

/-- Observer: the allocation bit of frame `n`, read from the word array the way
`alloc_frame_num`/`dealloc` address it (word `n / 64`, bit `n % 64`).  Words
beyond the array read as zero. -/
def bmBit (bm : BitMap) (n : Nat) : Bool :=
  (bm.map.getD (n / NUM_BITS_PER_FIELD) 0).testBit (n % NUM_BITS_PER_FIELD)

/-! ## `src/mem/frame_alloc/mod.rs` — the frame-allocator front end

The global `FRAME_ALLOCATOR: Option<BitMap>` singleton is threaded explicitly
as a `BitMap` argument (claims only concern the initialized allocator).  The
mutex lock/unlock pairs disable and re-enable interrupts and have no effect
on the allocator state itself. -/

/-- From `FrameAllocResult` in `frame_alloc/mod.rs`. -/
inductive FrameAllocResult where
  | Ok (frame_addr : Nat)
  | Success
  | Full
  | InvalidAddr
  | Err
deriving DecidableEq, Repr

/-- From `frame_alloc::alloc`: allocate via the bitmap and translate the frame
number to an address.  `none` models the panics (`unwrap` inside
`BitMap::alloc` and the "Frame number error" panic after translation). -/
def frameAllocAlloc (bm : BitMap) : Option (BitMap × FrameAllocResult) :=
  match bm.alloc with
  | none => none
  | some (bm', alloc_result) =>
    match alloc_result with
    | .Allocated frame_num =>
      match bm'.frame_to_addr frame_num with
      | some frame_addr => some (bm', .Ok frame_addr)
      | none => none
    | .Full => some (bm', .Full)
    | _ => some (bm', .Err)

/-- From `frame_alloc::alloc_frame`: allocate one specific frame given a
physical address.  Note the returned success value is `FrameAllocResult::Ok`
(its doc comment advertises `Success` — this mismatch is what breaks
`vmm::identity_map`, claim C3). -/
def frameAllocAllocFrame (bm : BitMap) (physical_addr : Nat) :
    Option (BitMap × FrameAllocResult) :=
  match bm.addr_to_frame physical_addr with
  | none => some (bm, .InvalidAddr)
  | some frame_num =>
    match bm.alloc_frame_num frame_num with
    | none => none
    | some (bm', alloc_result) =>
      match alloc_result with
      | .AlreadyUsed => some (bm', .Err)
      | .InvalidFrameNum => none
      | _ =>
        match bm'.frame_to_addr frame_num with
        | some frame_addr => some (bm', .Ok frame_addr)
        | none => none

/-- From `frame_alloc::dealloc`: translate the address and clear the bit. -/
def frameAllocDealloc (bm : BitMap) (physical_addr : Nat) :
    Option (BitMap × FrameAllocResult) :=
  match bm.addr_to_frame physical_addr with
  | none => some (bm, .InvalidAddr)
  | some frame_num =>
    match bm.dealloc frame_num with
    | none => none
    | some bm' => some (bm', .Success)

/-! ## `src/arch/mem/page_tables/` — the 4-level page tables

The four tables are physical frames reached through the self-referencing
entry of the top-level table; following the specification's design note, the
fixed virtual-address scheme is kept as the pure address formulas below, and
the logical content of the four levels is modelled as a radix tree keyed by
the 9-bit index path (one function per level, entry words defaulting to 0,
i.e. not present).  Creating a table zeroes it, exactly as `new` does. -/

/-- From `NUM_ENTRIES`: `FRAME_SIZE / size_of::<usize>() = 512`. -/
def NUM_ENTRIES : Nat := FRAME_SIZE / 8

/-- From `SELF_ENTRY_IDX`. -/
def SELF_ENTRY_IDX : Nat := 511

/-- From `SIGN_EXTEND`: canonical sign extension when the self entry lies in
the upper half of the table. -/
def SIGN_EXTEND : Nat :=
  if SELF_ENTRY_IDX > NUM_ENTRIES / 2 then 0xFFFF <<< 48 else 0

/-- From `PT_START_ADDR`. -/
def PT_START_ADDR : Nat := SIGN_EXTEND ||| (SELF_ENTRY_IDX <<< 39)

/-- From `PD_START_ADDR`. -/
def PD_START_ADDR : Nat := PT_START_ADDR ||| (SELF_ENTRY_IDX <<< 30)

/-- From `PDP_START_ADDR`. -/
def PDP_START_ADDR : Nat := PD_START_ADDR ||| (SELF_ENTRY_IDX <<< 21)

/-- From `PML4_START_ADDR`. -/
def PML4_START_ADDR : Nat := PDP_START_ADDR ||| (SELF_ENTRY_IDX <<< 12)

/-- From `PAGE_TABLES_VM_START`. -/
def PAGE_TABLES_VM_START : Nat := PT_START_ADDR

/-- From `PAGE_TABLES_VM_END`: `PML4_START_ADDR | 0xFFFF`. -/
def PAGE_TABLES_VM_END : Nat := PML4_START_ADDR ||| 0xFFFF

/-- From `PageTables::is_canonical` (48-bit address width). -/
def is_canonical (addr : Nat) : Bool :=
  decide (addr ≤ 0x00007FFFFFFFFFFF) || decide (addr ≥ 0xFFFF800000000000)

/-- From `PT::get_idx`: bits 12..21 of the virtual address. -/
def pt_get_idx (virt_addr : Nat) : Nat := (virt_addr >>> 12) &&& 0x1FF

/-- From `PD::get_idx`: bits 21..30 of the virtual address. -/
def pd_get_idx (virt_addr : Nat) : Nat := (virt_addr >>> 21) &&& 0x1FF

/-- From `PDP::get_idx`: bits 30..39 of the virtual address. -/
def pdp_get_idx (virt_addr : Nat) : Nat := (virt_addr >>> 30) &&& 0x1FF

/-- Modelled from the spec: `PML4::get_idx` lives in `pml_4.rs`, which is
missing from the source tree (only `mod.rs` declares and uses it).  The
specification fixes the top-level index as the 9-bit window at bits
[39:48) of the virtual address, in exact analogy with the three present
levels. -/
def pml4_get_idx (virt_addr : Nat) : Nat := (virt_addr >>> 39) &&& 0x1FF

/-- From the `ADDR_BITMASK` of `general_entry.rs`: bits 12..52. -/
def ADDR_BITMASK : Nat := 0x000FFFFFFFFFF000

/-- From `set_present` (bit 0 of the entry word). -/
def set_present (e : Nat) (is_present : Bool) : Nat := write_bit e 0 is_present

/-- From `set_writable` (bit 1). -/
def set_writable (e : Nat) (is_writable : Bool) : Nat := write_bit e 1 is_writable

/-- From `set_user` (bit 2). -/
def set_user (e : Nat) (is_user_accessible : Bool) : Nat := write_bit e 2 is_user_accessible

/-- From `set_no_execute` (bit 63). -/
def set_no_execute (e : Nat) (is_not_executable : Bool) : Nat := write_bit e 63 is_not_executable

/-- From `is_present` (bit 0). -/
def entry_is_present (e : Nat) : Bool := is_set e 0

/-- From `get_addr`: the entry word masked to its address field. -/
def entry_get_addr (e : Nat) : Nat := e &&& ADDR_BITMASK

/-- From `set_addr`: clear the address field, then install the (masked) address. -/
def entry_set_addr (e addr : Nat) : Nat :=
  (e &&& compl64 ADDR_BITMASK) ||| (addr &&& ADDR_BITMASK)

/-- The entry written by `make_table_if_not_present` on a non-present entry:
`set_present(true); set_addr(addr); set_writable(w); set_user(u); set_no_execute(nx)`
applied to the existing word. -/
def table_entry (e addr : Nat) (is_user is_writable is_no_exec : Bool) : Nat :=
  set_no_execute (set_user (set_writable (entry_set_addr (set_present e true) addr)
    is_writable) is_user) is_no_exec

/-- The leaf entry written by `PageTables::map`: a fresh `PTEntry::new()` (0),
then `set_present(true); set_addr(frame_addr); set_user(u); set_writable(w);
set_no_execute(nx)` (note the order differs from `table_entry`). -/
def leaf_entry (frame_addr : Nat) (is_user is_writable is_no_exec : Bool) : Nat :=
  set_no_execute (set_writable (set_user (entry_set_addr (set_present 0 true) frame_addr)
    is_user) is_writable) is_no_exec

/-- The logical content of the live 4-level page table: one entry word per
9-bit index path prefix. -/
structure PageTables where
  l4 : Nat → Nat
  l3 : Nat → Nat → Nat
  l2 : Nat → Nat → Nat → Nat
  l1 : Nat → Nat → Nat → Nat → Nat

/-- Point update of a one-argument table level. -/
def upd1 (f : Nat → Nat) (i : Nat) (v : Nat) : Nat → Nat :=
  fun j => if j = i then v else f j

/-- The `pml4[i4].make_table_if_not_present(...)` step of `PageTables::map`:
when the entry is present nothing happens; otherwise a frame is allocated
(`Err`, modelled `none`, when the allocator fails or panics), the entry is
built, and the fresh child table is zeroed (`PDP::new`). -/
def make_step4 (pt : PageTables) (bm : BitMap) (i4 : Nat) (u w nx : Bool) :
    Option (PageTables × BitMap) :=
  if entry_is_present (pt.l4 i4) then some (pt, bm)
  else
    match frameAllocAlloc bm with
    | some (bm', .Ok addr) =>
      some ({ pt with
              l4 := upd1 pt.l4 i4 (table_entry (pt.l4 i4) addr u w nx),
              l3 := fun j => if j = i4 then fun _ => 0 else pt.l3 j }, bm')
    | _ => none

/-- The `pdp[i3].make_table_if_not_present(...)` step (zeroes the fresh PD). -/
def make_step3 (pt : PageTables) (bm : BitMap) (i4 i3 : Nat) (u w nx : Bool) :
    Option (PageTables × BitMap) :=
  if entry_is_present (pt.l3 i4 i3) then some (pt, bm)
  else
    match frameAllocAlloc bm with
    | some (bm', .Ok addr) =>
      some ({ pt with
              l3 := fun j => if j = i4 then upd1 (pt.l3 j) i3 (table_entry (pt.l3 i4 i3) addr u w nx)
                             else pt.l3 j,
              l2 := fun j k => if j = i4 ∧ k = i3 then fun _ => 0 else pt.l2 j k }, bm')
    | _ => none

/-- The `pd[i2].make_table_if_not_present(...)` step (zeroes the fresh PT). -/
def make_step2 (pt : PageTables) (bm : BitMap) (i4 i3 i2 : Nat) (u w nx : Bool) :
    Option (PageTables × BitMap) :=
  if entry_is_present (pt.l2 i4 i3 i2) then some (pt, bm)
  else
    match frameAllocAlloc bm with
    | some (bm', .Ok addr) =>
      some ({ pt with
              l2 := fun j k => if j = i4 ∧ k = i3
                               then upd1 (pt.l2 j k) i2 (table_entry (pt.l2 i4 i3 i2) addr u w nx)
                               else pt.l2 j k,
              l1 := fun j k m => if j = i4 ∧ k = i3 ∧ m = i2 then fun _ => 0
                                 else pt.l1 j k m }, bm')
    | _ => none

/-- From `PageTables::map`: reject non-canonical addresses, create the three
intermediate tables if missing (each may allocate a frame), then write the
leaf entry.  `none` collapses the `Err` return and the (unreachable)
allocator panics; the frame allocator is threaded alongside the tables
because `make_table_if_not_present` calls `frame_alloc::alloc`. -/
def mapPT (pt : PageTables) (bm : BitMap) (page_addr frame_addr : Nat)
    (is_user is_writable is_no_exec : Bool) : Option (PageTables × BitMap) :=
  if is_canonical page_addr then
    match make_step4 pt bm (pml4_get_idx page_addr) is_user is_writable is_no_exec with
    | none => none
    | some (pt4, bm4) =>
      match make_step3 pt4 bm4 (pml4_get_idx page_addr) (pdp_get_idx page_addr)
          is_user is_writable is_no_exec with
      | none => none
      | some (pt3, bm3) =>
        match make_step2 pt3 bm3 (pml4_get_idx page_addr) (pdp_get_idx page_addr)
            (pd_get_idx page_addr) is_user is_writable is_no_exec with
        | none => none
        | some (pt2, bm2) =>
          some ({ pt2 with
                  l1 := fun j k m => if j = pml4_get_idx page_addr ∧ k = pdp_get_idx page_addr
                                       ∧ m = pd_get_idx page_addr
                                     then upd1 (pt2.l1 j k m) (pt_get_idx page_addr)
                                       (leaf_entry frame_addr is_user is_writable is_no_exec)
                                     else pt2.l1 j k m }, bm2)
  else none

/-- From `PageTables::get_pt_entry_ptr`: the canonicality check and the four
present-bit checks; returns the leaf entry word when the page is mapped. -/
def get_pt_entry (pt : PageTables) (page_addr : Nat) : Option Nat :=
  if is_canonical page_addr then
    if entry_is_present (pt.l4 (pml4_get_idx page_addr)) then
      if entry_is_present (pt.l3 (pml4_get_idx page_addr) (pdp_get_idx page_addr)) then
        if entry_is_present (pt.l2 (pml4_get_idx page_addr) (pdp_get_idx page_addr)
            (pd_get_idx page_addr)) then
          if entry_is_present (pt.l1 (pml4_get_idx page_addr) (pdp_get_idx page_addr)
              (pd_get_idx page_addr) (pt_get_idx page_addr)) then
            some (pt.l1 (pml4_get_idx page_addr) (pdp_get_idx page_addr)
              (pd_get_idx page_addr) (pt_get_idx page_addr))
          else none
        else none
      else none
    else none
  else none

/-- From `PageTables::virt_to_phys`: the stored frame address OR'd with the
page-internal offset of the queried address. -/
def virt_to_phys (pt : PageTables) (page_addr : Nat) : Option Nat :=
  (get_pt_entry pt page_addr).map (fun e => entry_get_addr e ||| (page_addr &&& 0xFFF))

/-- From `PageTables::unmap`: reset the leaf entry to `PTEntry::new()` (0) and
invalidate the TLB line (a hardware cache, not modelled).  `none` is `Err`. -/
def unmapPT (pt : PageTables) (page_addr : Nat) : Option PageTables :=
  (get_pt_entry pt page_addr).map (fun _ =>
    { pt with
      l1 := fun j k m => if j = pml4_get_idx page_addr ∧ k = pdp_get_idx page_addr
                           ∧ m = pd_get_idx page_addr
                         then upd1 (pt.l1 j k m) (pt_get_idx page_addr) 0
                         else pt.l1 j k m })

/-! ## `src/mem/map.rs` — the kernel memory map constants -/

/-- From `KERNEL_HEAP_METADATA_END_ADDR` (end of the 4 GiB mark). -/
def KERNEL_HEAP_METADATA_END_ADDR : Nat := 0x100000000

/-- From `KERNEL_HEAP_END_ADDR` (end of the lower canonical half). -/
def KERNEL_HEAP_END_ADDR : Nat := 0x7FFFFFFFFFFF

/-- From `PAGE_TABLES_START_ADDR` (re-export of the architecture constant). -/
def PAGE_TABLES_START_ADDR : Nat := PAGE_TABLES_VM_START

/-- From `PAGE_TABLES_END_ADDR` (re-export of the architecture constant). -/
def PAGE_TABLES_END_ADDR : Nat := PAGE_TABLES_VM_END

/-! ## `src/mem/vmm.rs` — the virtual memory manager (the parts the claims use) -/

/-- From `vmm::PAGE_SIZE` (same as the frame size). -/
def PAGE_SIZE : Nat := FRAME_SIZE

/-- Result of a `Result<(), ()>`-returning operation (`ok` is `Ok(())`,
`err` is `Err(())`). -/
inductive RRes where
  | ok
  | err
deriving DecidableEq, Repr

/-- From `vmm::identity_map`: mark the frame used via
`frame_alloc::alloc_frame`, and only when that returns
`FrameAllocResult::Success` fall through to `lazy_map` (`PageTables::map`
with the frame as both page and frame).  Since `alloc_frame` actually
returns `FrameAllocResult::Ok(addr)` on success, the wildcard arm returns
`Err(())` — after the bitmap bit has already been set.  `none` models the
panics inside the callees. -/
def identityMap (bm : BitMap) (pt : PageTables) (frame_addr : Nat)
    (is_user is_writable is_no_exec : Bool) :
    Option (BitMap × PageTables × RRes) :=
  match frameAllocAllocFrame bm frame_addr with
  | none => none
  | some (bm', res) =>
    match res with
    | .Success =>
      match mapPT pt bm' frame_addr frame_addr is_user is_writable is_no_exec with
      | some (pt', bm'') => some (bm'', pt', .ok)
      | none => some (bm', pt, .err)
    | _ => some (bm', pt, .err)

/-! ## `src/mem/page_fault.rs` — the page-fault policy -/

/-- Outcome of the high-level page-fault handler: either a fatal halt
(`panic!`), or the fault is resolved by calling the eager single-page
`vmm::map(page_addr, is_user, is_writable, is_no_exec)` with the recorded
arguments (that call allocates a fresh frame and maps the page). -/
inductive PFOut where
  | fatal
  | resolved (page_addr : Nat) (is_user is_writable is_no_exec : Bool)
deriving DecidableEq, Repr

/-- From `page_fault::page_fault`: check `present`, then `no_exec`, then
`user`, each fatally; otherwise map the page eagerly when it lies below the
heap-metadata end or inside the reserved page-table window, and halt fatally
everywhere else.  The `write` flag is received but unused (`_write`). -/
def pageFault (page_addr : Nat) (present _write user no_exec : Bool) : PFOut :=
  if present then .fatal
  else if no_exec then .fatal
  else if user then .fatal
  else if page_addr < KERNEL_HEAP_METADATA_END_ADDR
       ∨ (page_addr ≥ PAGE_TABLES_START_ADDR ∧ page_addr < PAGE_TABLES_END_ADDR) then
    .resolved page_addr user true false
  else .fatal

/-- The decision procedure exactly as claim C6 words it, used as the
specification side of the refinement: fatal on `present`, else fatal on
`no_exec`, else fatal on `user`, else resolve (kernel, writable,
executable-allowed, single page) when the address is below the heap-metadata
end address or inside `[PAGE_TABLES_START_ADDR, PAGE_TABLES_END_ADDR)`, else
fatal. -/
def pageFaultSpec (page_addr : Nat) (present _write user no_exec : Bool) : PFOut :=
  if present then .fatal
  else if no_exec then .fatal
  else if user then .fatal
  else if page_addr < KERNEL_HEAP_METADATA_END_ADDR
       ∨ (PAGE_TABLES_START_ADDR ≤ page_addr ∧ page_addr < PAGE_TABLES_END_ADDR) then
    .resolved page_addr false true false
  else .fatal

/-! ## `src/mem/dyn_alloc/` — the kernel heap allocator

The two `HeapList`s are singly linked, address-sorted chains of `HeapNode`s
carved out of a fixed metadata region by `HeapNodeAlloc`.  The claims about
the dynamic allocator concern the sequence of regions each list holds and
the addresses `kmalloc` hands out, so a `HeapList` is modelled by its
sorted sequence of regions (`List Region`); node-slot bookkeeping
(`HeapNodeAlloc`) manages the backing storage for that sequence and is not
itself the subject of a claim.  Each list operation below is the functional
rendition of the corresponding pointer routine in `heap_list.rs`. -/

/-- From `core::alloc::Layout`: a requested size and alignment. -/
structure Layout where
  size : Nat
  align : Nat
deriving DecidableEq, Repr

/-- From `HeapAlloc::can_fit`: align the region's start upward to the layout's
alignment; succeed (with the in-region offset of the aligned start) only when
the aligned span ends strictly inside the region — the strict `<` is the
boundary convention flagged as an off-by-one by the specification. -/
def can_fit (free_region : Region) (layout : Layout) : Option Nat :=
  let aligned_start := align_higher free_region.addr layout.align
  if aligned_start + layout.size < free_region.end_addr then
    some (aligned_start - free_region.addr)
  else
    none

/-- From `HeapList::traverse`: walk from the head and stop at the first node
whose region address is not below `addr`; the insertion position is the
number of nodes passed. -/
def insertPos (l : List Region) (addr : Nat) : Nat :=
  match l with
  | [] => 0
  | r :: rs => if r.addr < addr then insertPos rs addr + 1 else 0

/-- Loop of `HeapList::merge` with the accumulator `prev`: a node whose start
equals `prev`'s end address is absorbed into `prev` (sizes summed, its slot
freed back to the node allocator); otherwise `prev` is emitted and the walk
continues from the node. -/
def mergeGo (prev : Region) (l : List Region) : List Region :=
  match l with
  | [] => [prev]
  | b :: rest =>
    if prev.end_addr = b.addr then
      mergeGo ⟨prev.addr, prev.size + b.size⟩ rest
    else
      prev :: mergeGo b rest

/-- From `HeapList::merge`: one left-to-right coalescing pass over the chain. -/
def mergeRegions (l : List Region) : List Region :=
  match l with
  | [] => []
  | a :: rest => mergeGo a rest

/-- From `HeapList::add`: allocate a node for the region, splice it in at the
sorted position found by `traverse`, and run `merge` when requested. -/
def heapAdd (l : List Region) (region : Region) (merge : Bool) : List Region :=
  let spliced := l.insertIdx (insertPos l region.addr) region
  if merge then mergeRegions spliced else spliced

/-- The free-list scan of `HeapAlloc::internal_alloc`: the first node whose
region `can_fit` the layout, together with its position and offset. -/
def findFit (l : List Region) (layout : Layout) : Option (Nat × Region × Nat) :=
  match l with
  | [] => none
  | r :: rs =>
    match can_fit r layout with
    | some offset => some (0, r, offset)
    | none => (findFit rs layout).map (fun p => (p.1 + 1, p.2.1, p.2.2))

/-- The used-list scan of `HeapAlloc::internal_dealloc`: the first node whose
region starts exactly at the (page-aligned) pointer. -/
def findUsed (l : List Region) (addr : Nat) : Option (Nat × Region) :=
  match l with
  | [] => none
  | r :: rs =>
    if r.addr = addr then some (0, r)
    else (findUsed rs addr).map (fun p => (p.1 + 1, p.2))

/-- The state of the `HeapAlloc` singleton: the free list, the used list, and
the allocation counter. -/
structure HeapState where
  free_list : List Region
  used_list : List Region
  num_allocs : Nat
deriving DecidableEq, Repr

/-- The side effects `internal_alloc`/`internal_dealloc` request from the VMM
layer: `vmm::map_range(addr, size, is_user, is_writable, is_no_exec)` calls,
`vmm::unmap_range(addr, size)` calls, and `memset(ptr, value, size)` calls.
They are recorded rather than interpreted; mapping itself is the subject of
claim C1. -/
structure HeapEffects where
  map_range_calls : List (Nat × Nat × Bool × Bool × Bool)
  unmap_range_calls : List (Nat × Nat)
  memset_calls : List (Nat × Nat × Nat)
deriving DecidableEq, Repr

/-- From `HeapAlloc::internal_alloc`: round the size up to a whole number of
pages; first-fit scan of the free list; on a hit remove the free region,
split it into the allocated prefix and (if nonzero) the merged-back suffix,
record the allocation in the used list, and point at the aligned start.  On
a miss the pointer keeps its initial value 0.  Either way the allocation
counter is bumped, the span is mapped through the VMM with the requested
permissions, and the user-visible byte span is zeroed. -/
def internalAlloc (st : HeapState) (layout : Layout)
    (is_user is_writable is_no_exec : Bool) : HeapState × Nat × HeapEffects :=
  let aligned_layout : Layout := ⟨align_higher layout.size PAGE_SIZE, layout.align⟩
  let scan := findFit st.free_list aligned_layout
  let next :=
    match scan with
    | some (idx, free_region, offset) =>
      let free1 := st.free_list.eraseIdx idx
      let alloc_region : Region := Region.new_sized free_region.addr aligned_layout.size
      let after_region : Region :=
        ⟨alloc_region.end_addr, free_region.end_addr - alloc_region.end_addr⟩
      let free2 := if after_region.size > 0 then heapAdd free1 after_region true else free1
      let used2 := heapAdd st.used_list alloc_region false
      ({ st with free_list := free2, used_list := used2 }, alloc_region.addr + offset)
    | none => (st, 0)
  let allocated_ptr := next.2
  ({ next.1 with num_allocs := next.1.num_allocs + 1 },
   allocated_ptr,
   ⟨[(allocated_ptr, aligned_layout.size, is_user, is_writable, is_no_exec)],
    [],
    [(allocated_ptr, 0, layout.size)]⟩)

/-- From `HeapAlloc::internal_dealloc`: align the pointer down to a page
boundary, find the used region starting there, move it (merged) to the free
list, and unmap its span; a pointer matching no used region is ignored. -/
def internalDealloc (st : HeapState) (p : Nat) : HeapState × HeapEffects :=
  let aligned_ptr := align_lower p PAGE_SIZE
  match findUsed st.used_list aligned_ptr with
  | some (idx, removed_region) =>
    ({ st with
       used_list := st.used_list.eraseIdx idx,
       free_list := heapAdd st.free_list removed_region true,
       num_allocs := st.num_allocs - 1 },
     ⟨[], [(removed_region.addr, removed_region.size)], []⟩)
  | none => (st, ⟨[], [], []⟩)

/-- From `kmalloc`: `internal_alloc` with a layout of the requested size and
page-size alignment. -/
def kmallocModel (st : HeapState) (size : Nat) (is_user is_writable is_no_exec : Bool) :
    HeapState × Nat × HeapEffects :=
  internalAlloc st ⟨size, PAGE_SIZE⟩ is_user is_writable is_no_exec

/-- From `kfree`: `internal_dealloc` on the pointer. -/
def kfreeModel (st : HeapState) (p : Nat) : HeapState × HeapEffects :=
  internalDealloc st p

/-- From `HeapAlloc::init`: both lists start empty and the whole allocation
region is added (with merging) to the free list.  The metadata region is
split between the two node allocators and only backs list nodes; it holds
no regions. -/
def heapInit (alloc_region : Region) : HeapState :=
  ⟨heapAdd [] alloc_region true, [], 0⟩

/-- Sum of the sizes of the regions of a list. -/
def sumSizes (l : List Region) : Nat := (l.map Region.size).sum

/-- An address is covered by a list of regions when some region contains it. -/
def covers (l : List Region) (x : Nat) : Prop :=
  ∃ r ∈ l, r.addr ≤ x ∧ x < r.end_addr

/-! ## Concrete states used by the witnesses and counterexamples -/

/-- A page-table state with every entry word zero (nothing present). -/
def ptZero : PageTables := ⟨fun _ => 0, fun _ _ => 0, fun _ _ _ => 0, fun _ _ _ _ => 0⟩

/-- The frame allocator freshly initialized over a 1 MiB usable physical
region starting at 1 MiB (the concrete scenario of claim C5): the bitmap
itself occupies one 4 KiB frame, leaving 255 allocatable frames starting at
`0x101000`. -/
def bm1MiB : BitMap := (BitMap.new ⟨0x100000, 0x100000⟩).getD ⟨0, 0, [], 0⟩

/-- The state after the first `frame_alloc::alloc()` on `bm1MiB`. -/
def c5bm1 : BitMap := ((frameAllocAlloc bm1MiB).getD (bm1MiB, .Err)).1

/-- The state after additionally deallocating frame number 0. -/
def c5bm2 : BitMap := (c5bm1.dealloc 0).getD c5bm1

/-- A frame allocator over a region yielding 65 frames: its bit array is
floor-truncated to a single 64-bit word, so frame 64 exists (is counted in
`frames_count`) but has no bit — `dealloc 64` then panics on the slice
index (claim C2's dealloc part). -/
def bm65 : BitMap := (BitMap.new ⟨0x100000, 0x42000⟩).getD ⟨0, 0, [], 0⟩

/-- A successful concrete `PageTables::map`: page `0x5000` to frame `0x20000`
on empty tables backed by `bm1MiB` (three parent tables get created). -/
def c1map : Option (PageTables × BitMap) :=
  mapPT ptZero bm1MiB 0x5000 0x20000 false true false

/-- The page tables after `c1map`. -/
def c1pt1 : PageTables := (c1map.getD (ptZero, bm1MiB)).1

/-- The frame allocator after `c1map`. -/
def c1bm1 : BitMap := (c1map.getD (ptZero, bm1MiB)).2

/-- The page tables after additionally unmapping page `0x5000`. -/
def c1pt2 : PageTables := (unmapPT c1pt1 0x5000).getD c1pt1

/-- A concrete `PageTables::map` whose frame address `2^52` is frame-aligned
but overflows the 40-bit address field of the entry: `set_addr` silently
masks it to 0 (claim C1's counterexample). -/
def c1badMap : Option (PageTables × BitMap) :=
  mapPT ptZero bm1MiB 0x5000 0x10000000000000 false true false

/-- The `vmm::identity_map` call on the fresh allocator and empty tables,
for the in-range free frame `0x101000` (claim C3). -/
def c3res : Option (BitMap × PageTables × RRes) :=
  identityMap bm1MiB ptZero 0x101000 false true false

/-- The dynamic allocator freshly initialized over the kernel heap region
`[0x100000000, 0x7FFFFFFFFFFF)` of `mem::init` (claim C4's scenario). -/
def c4st0 : HeapState := heapInit ⟨0x100000000, 0x7FFEFFFFFFFF⟩

/-- First `kmalloc(4096, false, true, false)`. -/
def c4r1 : HeapState × Nat × HeapEffects := kmallocModel c4st0 4096 false true false

/-- Second `kmalloc(4096, false, true, false)`. -/
def c4r2 : HeapState × Nat × HeapEffects := kmallocModel c4r1.1 4096 false true false

/-- State after `kfree` of the first returned pointer. -/
def c4st3 : HeapState := (kfreeModel c4r2.1 c4r1.2.1).1

/-- Third `kmalloc(4096, false, true, false)`. -/
def c4r3 : HeapState × Nat × HeapEffects := kmallocModel c4st3 4096 false true false

/-! ## Trace operations on the bitmap allocator (claim C2) -/

/-- One call in a sequence of `BitMap::alloc` / `BitMap::dealloc` calls. -/
inductive BmOp where
  | alloc
  | dealloc (frame_num : Nat)
deriving DecidableEq, Repr

/-- Run a sequence of bitmap calls; `none` as soon as any call panics. -/
def runOps (bm : BitMap) (ops : List BmOp) : Option BitMap :=
  match ops with
  | [] => some bm
  | BmOp.alloc :: rest =>
    match bm.alloc with
    | some (bm', _) => runOps bm' rest
    | none => none
  | BmOp.dealloc k :: rest =>
    match bm.dealloc k with
    | some bm' => runOps bm' rest
    | none => none

/-- The state after a second `BitMap::alloc` on `c5bm1` (used by the C2
witness: the two allocations return frames 0 and 1). -/
def c2bm3 : BitMap := (c5bm1.alloc.getD (c5bm1, .Full)).1

/-! ## Theorems -/

/-- C9: for every `Region r` and address `x`, `r.includes(x)` holds iff
`r.addr >= x` and `r.size > 0` (the region's own start address is compared
against `x`, not `x` against the region's bounds); consequently
`r.fits(other)` holds iff `r.addr >= other.end_addr()` and `r.size > 0`,
which is not a containment test of `other` within `r`. -/
theorem region_includes_is_start_compare (r : Region) (x : Nat) (other : Region) :
    (r.includes x = true ↔ (r.addr ≥ x ∧ 0 < r.size))
    ∧ (r.fits other = true ↔ (r.addr ≥ other.end_addr ∧ 0 < r.size)) := by
  constructor
  · simp only [Region.includes, Region.end_addr, Bool.and_eq_true, decide_eq_true_eq]
    omega
  · simp only [Region.fits, Region.includes, Region.end_addr, Bool.and_eq_true,
      decide_eq_true_eq]
    omega

/-- C6: for every page-fault input, the handler decides in this order:
`present` is fatal; otherwise `no_exec` is fatal; otherwise `user` is fatal;
otherwise a fault below the heap-metadata end address or inside the reserved
page-table window `[PAGE_TABLES_START_ADDR, PAGE_TABLES_END_ADDR)` is
resolved by the eager single-page map with kernel, writable,
executable-allowed permissions; every other case is fatal.  Stated as an
equality with the claim's decision procedure `pageFaultSpec`. -/
theorem page_fault_decision (page_addr : Nat) (present write user no_exec : Bool) :
    pageFault page_addr present write user no_exec
      = pageFaultSpec page_addr present write user no_exec := by
  cases present <;> cases user <;> cases no_exec <;>
    simp [pageFault, pageFaultSpec, ge_iff_le]

/-- C5: initializing the frame allocator over a 1 MiB usable region with
4 KiB frames yields 256 allocatable frames minus the one frame occupied by
the bitmap itself; the first `alloc()` returns the lowest frame address of
the managed region (`0x101000`); and after `dealloc` of frame 0 followed by
one more `alloc()`, that same lowest address is returned again. -/
theorem frame_alloc_1MiB_scenario :
    bm1MiB.frames_count = 256 - 1
    ∧ bm1MiB.get_mappable_region.addr = 0x101000
    ∧ (frameAllocAlloc bm1MiB).map (fun r => r.2) = some (.Ok 0x101000)
    ∧ (c5bm1.dealloc 0).isSome = true
    ∧ (frameAllocAlloc c5bm2).map (fun r => r.2) = some (.Ok 0x101000) := by
  exact ⟨by decide, by decide, by decide, by decide, by decide⟩

/-- C3 (code bug): on the fresh 1 MiB allocator, frame `0x101000` is inside
the managed range (frame number 0) and free, yet
`vmm::identity_map(0x101000, false, true, false)` returns `Err(())` — and it
does so after having marked the frame used in the bitmap, because it matches
the result of `frame_alloc::alloc_frame` against `FrameAllocResult::Success`
while `alloc_frame` returns `FrameAllocResult::Ok(addr)` on success.  No
mapping is performed. -/
theorem identity_map_marks_then_errs :
    bmBit bm1MiB 0 = false
    ∧ bm1MiB.addr_to_frame 0x101000 = some 0
    ∧ c3res.map (fun r => r.2.2) = some RRes.err
    ∧ c3res.map (fun r => bmBit r.1 0) = some true := by
  exact ⟨by decide, by decide, by decide, by decide⟩

/-- Helper for C10: when every free region fails `can_fit`, the scan finds
nothing. -/
theorem findFit_eq_none (l : List Region) (layout : Layout)
    (h : ∀ r ∈ l, can_fit r layout = none) : findFit l layout = none := by
  induction l with
  | nil => rfl
  | cons r rs ih =>
    have hr : can_fit r layout = none := h r (by simp)
    have hrs : findFit rs layout = none := ih (fun s hs => h s (by simp [hs]))
    simp [findFit, hr, hrs]

/-- C10: if no region in the free list satisfies `can_fit` for the
page-rounded layout, `internal_alloc` (hence `kmalloc`) neither halts nor
returns an error value: it leaves both lists unchanged, still increments
`num_allocs`, calls `vmm::map_range` starting at virtual address 0 for the
page-rounded size with the requested permissions, zeroes `layout.size()`
bytes starting at address 0, and returns the null pointer. -/
theorem kmalloc_no_fit (st : HeapState) (size : Nat) (is_user is_writable is_no_exec : Bool)
    (h : ∀ r ∈ st.free_list,
      can_fit r ⟨align_higher size PAGE_SIZE, PAGE_SIZE⟩ = none) :
    kmallocModel st size is_user is_writable is_no_exec
      = (⟨st.free_list, st.used_list, st.num_allocs + 1⟩, 0,
         ⟨[(0, align_higher size PAGE_SIZE, is_user, is_writable, is_no_exec)], [],
          [(0, 0, size)]⟩) := by
  have hf := findFit_eq_none st.free_list _ h
  simp [kmallocModel, internalAlloc, hf]

/-- Witness for C10: a heap state whose free list is empty. -/
theorem kmalloc_no_fit_witness :
    kmallocModel ⟨[], [], 5⟩ 4096 false true false
      = (⟨[], [], 6⟩, 0, ⟨[(0, 4096, false, true, false)], [], [(0, 0, 4096)]⟩) := by
  rw [kmalloc_no_fit ⟨[], [], 5⟩ 4096 false true false (by simp)]
  decide

/-- C4 counterexample: in the claim's own scenario on the freshly initialized
dynamic allocator, the third `kmalloc(4096, false, true, false)` does NOT
return the first call's pointer. -/
theorem kmalloc_reuse_counterexample :
    c4r1.2.1 = 0x100000000
    ∧ c4r3.2.1 = 0x100002000
    ∧ c4r3.2.1 ≠ c4r1.2.1 := by
  exact ⟨by decide, by decide, by decide⟩

/-- C4 (amended): in the claim's scenario the first two calls return the heap
base and the following page; the `kfree`d first page does return to the free
list, but `can_fit`'s strict `<` rejects an allocation that would exactly
fill it, so the third `kmalloc` skips it (first-fit) and returns the first
address after the second allocation instead of the first call's pointer. -/
theorem kmalloc_reuse_amended :
    c4r1.2.1 = 0x100000000
    ∧ c4r2.2.1 = 0x100001000
    ∧ (⟨0x100000000, 0x1000⟩ : Region) ∈ c4st3.free_list
    ∧ can_fit ⟨0x100000000, 0x1000⟩ ⟨align_higher 4096 PAGE_SIZE, PAGE_SIZE⟩ = none
    ∧ c4r3.2.1 = 0x100002000 := by
  exact ⟨by decide, by decide, by decide, by decide, by decide⟩

/-! ### Bit-level helper lemmas -/

/-- Bits of the 64-bit complement: flipped below bit 64, zero above. -/
theorem testBit_compl64 (m i : Nat) :
    (compl64 m).testBit i = (decide (i < 64) ^^ m.testBit i) := by
  have h : U64_MAX = 2 ^ 64 - 1 := by decide
  rw [compl64, h, Nat.testBit_xor, Nat.testBit_two_pow_sub_one]

/-- `is_clear` reads the bit (negated). -/
theorem is_clear_eq (w b : Nat) : is_clear w b = ! w.testBit b := by
  unfold is_clear
  rw [Nat.one_shiftLeft, Nat.and_two_pow]
  cases h : w.testBit b
  · simp
  · simp [Nat.pos_iff_ne_zero.mp (Nat.two_pow_pos b)]

/-- `is_set` reads the bit. -/
theorem is_set_eq (w b : Nat) : is_set w b = w.testBit b := by
  rw [is_set, is_clear_eq, Bool.not_not]

/-- Bits of `set_bit`. -/
theorem testBit_set_bit (w b i : Nat) :
    (set_bit w b).testBit i = (w.testBit i || decide (b = i)) := by
  rw [set_bit, Nat.testBit_or, Nat.one_shiftLeft, Nat.testBit_two_pow]

/-- Bits of `clear_bit`. -/
theorem testBit_clear_bit (w b i : Nat) :
    (clear_bit w b).testBit i = (w.testBit i && (decide (i < 64) ^^ decide (b = i))) := by
  rw [clear_bit, Nat.testBit_land, testBit_compl64, Nat.one_shiftLeft, Nat.testBit_two_pow]

/-- Bits of the page-table entry address mask: exactly bits 12..52. -/
theorem testBit_ADDR_BITMASK (i : Nat) :
    ADDR_BITMASK.testBit i = (decide (12 ≤ i) && decide (i < 52)) := by
  have h : ADDR_BITMASK = (2 ^ 40 - 1) <<< 12 := by decide
  rw [h, Nat.testBit_shiftLeft, Nat.testBit_two_pow_sub_one]
  by_cases h12 : 12 ≤ i
  · by_cases h52 : i < 52 <;>
      simp [h12, h52, show (i - 12 < 40) ↔ (i < 52) by omega]
  · simp [h12]

/-- Masking with the complement of the low `k` ones rounds down to a multiple
of `2 ^ k` (for 64-bit values). -/
theorem land_compl64_ones (a k : Nat) (ha : a < 2 ^ 64) (hk : k ≤ 64) :
    a &&& compl64 (2 ^ k - 1) = a / 2 ^ k * 2 ^ k := by
  apply Nat.eq_of_testBit_eq
  intro i
  have hdiv : a / 2 ^ k * 2 ^ k = (a >>> k) <<< k := by
    rw [Nat.shiftRight_eq_div_pow, Nat.shiftLeft_eq]
  rw [Nat.testBit_land, testBit_compl64, Nat.testBit_two_pow_sub_one, hdiv,
    Nat.testBit_shiftLeft, Nat.testBit_shiftRight]
  by_cases hik : k ≤ i
  · by_cases hi64 : i < 64
    · simp [hik, hi64, show ¬ (i < k) by omega, show k + (i - k) = i by omega]
    · have hz : a.testBit i = false :=
        Nat.testBit_lt_two_pow (lt_of_lt_of_le ha (Nat.pow_le_pow_right (by norm_num) (by omega)))
      simp [hik, hz, show k + (i - k) = i by omega]
  · simp [hik, show i < k by omega, show i < 64 by omega]

/-! ### Claim C8 — alignment algebra -/

/-- C8 counterexample: at `x = usize::MAX` and the power-of-two alignment
`0x1000`, the addition inside `align_higher` wraps (release build; a debug
build panics at the same input), the result is 0, and `align_higher(x, n) ≥ x`
fails. -/
theorem align_higher_counterexample :
    align_higher 18446744073709551615 0x1000 = 0
    ∧ ¬ (18446744073709551615 ≤ align_higher 18446744073709551615 0x1000) := by
  exact ⟨by decide, by decide⟩

/-- Helper for C8: closed form of `align_higher` at a power-of-two alignment
when the addition does not wrap: round up to the next multiple of `2^k`. -/
theorem align_higher_pow (a k : Nat) (hk : k < 64) (hov : a + (2 ^ k - 1) < 2 ^ 64) :
    align_higher a (2 ^ k) = (a + (2 ^ k - 1)) / 2 ^ k * 2 ^ k := by
  have hpos : 0 < (2 : Nat) ^ k := Nat.two_pow_pos k
  have hlt64 : (2 : Nat) ^ k < 2 ^ 64 := by
    calc (2 : Nat) ^ k < 2 ^ k * 2 := by omega
    _ = 2 ^ (k + 1) := by rw [pow_succ]
    _ ≤ 2 ^ 64 := Nat.pow_le_pow_right (by norm_num) (by omega)
  have hu : U64_MOD = 2 ^ 64 := by norm_num [U64_MOD]
  have hm : wrap64 (2 ^ k + U64_MAX) = 2 ^ k - 1 := by
    unfold wrap64 U64_MOD U64_MAX
    unfold U64_MOD at hu
    omega
  rw [align_higher, hm, wrap64, hu, Nat.mod_eq_of_lt hov, land_compl64_ones _ k hov (by omega)]

/-- C8 (amended): for every `x < 2^64` and power-of-two alignment `n = 2^k`
(`k < 64`): `align_lower(x, n) ≤ x` always;
`align_higher(align_lower(x, n), n) = align_lower(x, n)` always; and
`align_higher(x, n) ≥ x` whenever `x + n - 1` does not overflow 64 bits
(the overflow case is the counterexample above). -/
theorem align_idempotent_and_bounds (x n k : Nat) (hn : n = 2 ^ k) (hk : k < 64)
    (hx : x < 2 ^ 64) :
    align_lower x n ≤ x
    ∧ align_higher (align_lower x n) n = align_lower x n
    ∧ (x + n - 1 < 2 ^ 64 → x ≤ align_higher x n) := by
  subst hn
  have hpos : 0 < (2 : Nat) ^ k := Nat.two_pow_pos k
  have hsplit : (2 : Nat) ^ k * 2 ^ (64 - k) = 2 ^ 64 := by
    rw [← pow_add, Nat.add_sub_cancel' (show k ≤ 64 by omega)]
  refine ⟨Nat.sub_le x (x % 2 ^ k), ?_, ?_⟩
  · have hlow : align_lower x (2 ^ k) = 2 ^ k * (x / 2 ^ k) := by
      have := Nat.div_add_mod x (2 ^ k)
      unfold align_lower
      omega
    have hle : align_lower x (2 ^ k) ≤ x := Nat.sub_le x (x % 2 ^ k)
    have hq : x / 2 ^ k < 2 ^ (64 - k) := by
      by_contra hq
      push_neg at hq
      have h1 : (2 : Nat) ^ k * 2 ^ (64 - k) ≤ 2 ^ k * (x / 2 ^ k) :=
        Nat.mul_le_mul_left _ hq
      omega
    have hov : align_lower x (2 ^ k) + (2 ^ k - 1) < 2 ^ 64 := by
      have h1 : 2 ^ k * (x / 2 ^ k + 1) ≤ 2 ^ k * 2 ^ (64 - k) :=
        Nat.mul_le_mul_left _ hq
      rw [Nat.mul_add] at h1
      omega
    rw [hlow] at hov ⊢
    rw [align_higher_pow _ k hk hov]
    rw [Nat.mul_add_div hpos, Nat.div_eq_of_lt (show (2 : Nat) ^ k - 1 < 2 ^ k by omega),
      Nat.add_zero, Nat.mul_comm]
  · intro hnoov
    have hov : x + (2 ^ k - 1) < 2 ^ 64 := by omega
    rw [align_higher_pow _ k hk hov]
    have hdm := Nat.div_add_mod (x + (2 ^ k - 1)) (2 ^ k)
    have hmod : (x + (2 ^ k - 1)) % 2 ^ k < 2 ^ k := Nat.mod_lt _ hpos
    have hcomm : (x + (2 ^ k - 1)) / 2 ^ k * 2 ^ k = 2 ^ k * ((x + (2 ^ k - 1)) / 2 ^ k) :=
      Nat.mul_comm ..
    omega

/-- Witness for C8's amended theorem: `x = 0x1234`, `n = 0x1000 = 2^12`. -/
theorem align_idempotent_and_bounds_witness :
    align_lower 0x1234 0x1000 ≤ 0x1234
    ∧ align_higher (align_lower 0x1234 0x1000) 0x1000 = align_lower 0x1234 0x1000
    ∧ 0x1234 ≤ align_higher 0x1234 0x1000 := by
  have h := align_idempotent_and_bounds 0x1234 0x1000 12 (by decide) (by decide) (by decide)
  exact ⟨h.1, h.2.1, h.2.2 (by decide)⟩


/-! ### Claim C2 — bitmap allocation discipline -/

/-- `get_free` returns a clear bit position below 64. -/
theorem get_free_some (w b : Nat) (h : get_free w = some b) :
    w.testBit b = false ∧ b < 64 := by
  unfold get_free at h
  have h1 := List.find?_some h
  have h2 := List.mem_range.mp (List.mem_of_find?_eq_some h)
  rw [is_clear_eq] at h1
  exact ⟨by simpa using h1, h2⟩

/-- Decomposition of a successful `BitMap::alloc` word scan: the returned
frame number addresses a bit that was clear, in a word inside the array, and
the new array differs only by setting that bit. -/
theorem alloc_scan_found (m : List Nat) (fuel : Nat) :
    ∀ (i : Nat) (m' : List Nat) (ff n : Nat), alloc_scan m i fuel = .found m' ff n →
    ∃ b, b < 64 ∧ n = ff * NUM_BITS_PER_FIELD + b ∧ ff < m.length
      ∧ (m.getD ff 0).testBit b = false
      ∧ m' = m.set ff (set_bit (m.getD ff 0) b) := by
  induction fuel with
  | zero =>
    intro i m' ff n h
    simp [alloc_scan] at h
  | succ fuel ih =>
    intro i m' ff n h
    rw [alloc_scan] at h
    by_cases hi : i < m.length
    · rw [dif_pos hi] at h
      by_cases hfree : has_free (m.get ⟨i, hi⟩)
      · rw [if_pos hfree] at h
        cases hg : get_free (m.get ⟨i, hi⟩) with
        | none => rw [hg] at h; cases h
        | some b =>
          rw [hg] at h
          cases h
          have hget : m.get ⟨i, hi⟩ = m.getD i 0 := by
            simp [List.getD_eq_getElem?_getD, List.getElem?_eq_getElem hi]
          obtain ⟨hb1, hb2⟩ := get_free_some _ _ hg
          exact ⟨b, hb2, rfl, hi, by rw [← hget]; exact hb1, by rw [hget]⟩
      · rw [if_neg hfree] at h
        exact ih (i + 1) m' ff n h
    · rw [dif_neg hi] at h
      cases h

/-- A successful `BitMap::alloc` returns a frame whose bit was clear, sets
exactly that bit, and changes nothing else (nor the frame geometry). -/
theorem alloc_found_bits (bm bm' : BitMap) (n : Nat)
    (h : bm.alloc = some (bm', .Allocated n)) :
    bmBit bm n = false ∧ bmBit bm' n = true
    ∧ (∀ j, j ≠ n → bmBit bm' j = bmBit bm j)
    ∧ bm'.frames_start = bm.frames_start := by
  unfold BitMap.alloc at h
  split at h
  case h_1 map' ff n' heq =>
    simp only [Option.some.injEq, Prod.mk.injEq, BitMapResult.Allocated.injEq] at h
    obtain ⟨h1, h2⟩ := h
    rw [← h2, ← h1]
    obtain ⟨b, hb, hn, hff, hclear, hmap⟩ :=
      alloc_scan_found bm.map bm.map.length bm.first_free map' ff n' heq
    subst hmap
    subst hn
    have hdiv : (ff * NUM_BITS_PER_FIELD + b) / NUM_BITS_PER_FIELD = ff := by
      simp only [NUM_BITS_PER_FIELD]
      omega
    have hmod : (ff * NUM_BITS_PER_FIELD + b) % NUM_BITS_PER_FIELD = b := by
      simp only [NUM_BITS_PER_FIELD]
      omega
    refine ⟨?_, ?_, ?_, rfl⟩
    · rw [bmBit, hdiv, hmod]
      exact hclear
    · rw [bmBit]
      simp only [hdiv, hmod]
      simp [List.getD_eq_getElem?_getD, List.getElem?_set_self, hff, testBit_set_bit]
    · intro j hj
      rw [bmBit, bmBit]
      by_cases hw : j / NUM_BITS_PER_FIELD = ff
      · have hjb : ¬ (b = j % NUM_BITS_PER_FIELD) := by
          simp only [NUM_BITS_PER_FIELD] at hw hj ⊢
          omega
        simp only [hw]
        simp [List.getD_eq_getElem?_getD, List.getElem?_set_self, hff, testBit_set_bit, hjb]
      · simp [List.getD_eq_getElem?_getD, List.getElem?_set_ne (fun he => hw he.symm)]
  case h_2 heq => simp at h
  case h_3 heq => cases h

/-- `BitMap::alloc` never clears a set bit (it only sets one). -/
theorem alloc_some_preserves (bm bm' : BitMap) (res : BitMapResult)
    (h : bm.alloc = some (bm', res)) :
    ∀ j, bmBit bm j = true → bmBit bm' j = true := by
  unfold BitMap.alloc at h
  split at h
  case h_1 map' ff n' heq =>
    simp only [Option.some.injEq, Prod.mk.injEq] at h
    obtain ⟨h1, h2⟩ := h
    rw [← h1]
    obtain ⟨b, hb, hn, hff, hclear, hmap⟩ :=
      alloc_scan_found bm.map bm.map.length bm.first_free map' ff n' heq
    subst hmap
    intro j hj
    rw [bmBit] at hj ⊢
    by_cases hw : j / NUM_BITS_PER_FIELD = ff
    · simp only [hw] at hj ⊢
      simp only [List.getD_eq_getElem?_getD, List.getElem?_set_self, hff, Option.getD_some,
        testBit_set_bit]
      simp only [List.getD_eq_getElem?_getD] at hj
      rw [hj]
      simp
    · simp only [List.getD_eq_getElem?_getD, List.getElem?_set_ne (fun he => hw he.symm)]
      simp only [List.getD_eq_getElem?_getD] at hj
      exact hj
  case h_2 heq =>
    simp only [Option.some.injEq, Prod.mk.injEq] at h
    obtain ⟨h1, h2⟩ := h
    rw [← h1]
    exact fun j hj => hj
  case h_3 heq => cases h

/-- A non-panicking `BitMap::dealloc` leaves every other frame's bit
unchanged, and never sets the target bit. -/
theorem dealloc_bits (bm bm' : BitMap) (k : Nat) (h : bm.dealloc k = some bm') :
    (∀ j, j ≠ k → bmBit bm' j = bmBit bm j)
    ∧ (bmBit bm k = false → bmBit bm' k = false) := by
  unfold BitMap.dealloc at h
  split at h
  case isTrue hcount =>
    split at h
    case isTrue hlen =>
      simp only [Option.some.injEq] at h
      rw [← h]
      have hget : bm.map.get ⟨k / NUM_BITS_PER_FIELD, hlen⟩
          = bm.map.getD (k / NUM_BITS_PER_FIELD) 0 := by
        simp [List.getD_eq_getElem?_getD, List.getElem?_eq_getElem hlen]
      constructor
      · intro j hj
        rw [bmBit, bmBit]
        by_cases hw : j / NUM_BITS_PER_FIELD = k / NUM_BITS_PER_FIELD
        · have hjb : ¬ (k % NUM_BITS_PER_FIELD = j % NUM_BITS_PER_FIELD) := by
            simp only [NUM_BITS_PER_FIELD] at hw hj ⊢
            omega
          have hj64 : j % NUM_BITS_PER_FIELD < 64 := by
            simp only [NUM_BITS_PER_FIELD]
            omega
          simp only [hw, hget]
          simp [List.getD_eq_getElem?_getD, List.getElem?_set_self, hlen, testBit_clear_bit,
            hjb, hj64]
        · simp [List.getD_eq_getElem?_getD, List.getElem?_set_ne (fun he => hw he.symm)]
      · intro _
        have hk64 : k % NUM_BITS_PER_FIELD < 64 := by
          simp only [NUM_BITS_PER_FIELD]
          omega
        rw [bmBit]
        simp only [hget]
        simp [List.getD_eq_getElem?_getD, List.getElem?_set_self, hlen, testBit_clear_bit, hk64]
    case isFalse hlen => cases h
  case isFalse hcount =>
    simp only [Option.some.injEq] at h
    rw [← h]
    exact ⟨fun j _ => rfl, fun hk => hk⟩

/-- `BitMap::dealloc` does not panic when the frame's word index is inside
the bit array. -/
theorem dealloc_isSome (bm : BitMap) (k : Nat)
    (h : k / NUM_BITS_PER_FIELD < bm.map.length) :
    (bm.dealloc k).isSome = true := by
  unfold BitMap.dealloc
  by_cases hc : k < bm.frames_count
  · rw [if_pos hc, dif_pos h]
    rfl
  · rw [if_neg hc]
    rfl

/-- A bitmap-call sequence that never deallocates frame `n` (and never
panics) keeps `n`'s allocation bit set. -/
theorem runOps_preserves (L : List BmOp) :
    ∀ (bm bm2 : BitMap) (n : Nat), runOps bm L = some bm2 →
      BmOp.dealloc n ∉ L → bmBit bm n = true → bmBit bm2 n = true := by
  induction L with
  | nil =>
    intro bm bm2 n h _ hb
    cases h
    exact hb
  | cons op rest ih =>
    intro bm bm2 n h hnotin hb
    have hnotin1 : op ≠ BmOp.dealloc n := fun he => hnotin (by rw [he]; exact List.mem_cons_self ..)
    have hnotin2 : BmOp.dealloc n ∉ rest := fun he => hnotin (List.mem_cons_of_mem _ he)
    match op, hnotin1 with
    | BmOp.alloc, _ =>
      rw [runOps] at h
      cases halloc : bm.alloc with
      | none => rw [halloc] at h; cases h
      | some p =>
        rw [halloc] at h
        exact ih p.1 bm2 n h hnotin2
          (alloc_some_preserves bm p.1 p.2 (by rw [halloc]) n hb)
    | BmOp.dealloc kk, hne =>
      have hkk : ¬ (n = kk) := fun he => hne (by rw [he])
      rw [runOps] at h
      cases hde : bm.dealloc kk with
      | none => rw [hde] at h; cases h
      | some bmd =>
        rw [hde] at h
        have hstep := (dealloc_bits bm bmd kk hde).1 n hkk
        exact ih bmd bm2 n h hnotin2 (by rw [hstep]; exact hb)

/-- C2 (amended): (1) across any sequence of `BitMap::alloc`/`BitMap::dealloc`
calls, two frame numbers returned by `alloc` with no intervening `dealloc` of
either are distinct, hence their frame addresses are distinct (pairwise
frame-disjoint); (2) a `dealloc` of a never-allocated (clear) frame number
whose word index lies inside the bit array does not panic, leaves the bit
clear, and leaves the allocation state of every other frame unchanged.  (For
a clear frame number `k < frames_count` whose word index lies beyond the
floor-truncated bit array, `dealloc` panics on the slice index instead of
being a no-op — the counterexample below — which is the one correction to
the claim.) -/
theorem bitmap_alloc_disjoint_and_dealloc_noop :
    (∀ (bm bm1 bm2 bm3 : BitMap) (L : List BmOp) (n m : Nat),
      bm.alloc = some (bm1, .Allocated n) →
      runOps bm1 L = some bm2 →
      BmOp.dealloc n ∉ L →
      BmOp.dealloc m ∉ L →
      bm2.alloc = some (bm3, .Allocated m) →
      n ≠ m ∧ bm.frames_start + n * FRAME_SIZE ≠ bm.frames_start + m * FRAME_SIZE)
    ∧ (∀ (bm : BitMap) (k j : Nat),
      bmBit bm k = false → k / NUM_BITS_PER_FIELD < bm.map.length → j ≠ k →
      (bm.dealloc k).isSome = true
      ∧ bmBit ((bm.dealloc k).getD bm) k = false
      ∧ bmBit ((bm.dealloc k).getD bm) j = bmBit bm j) := by
  constructor
  · intro bm bm1 bm2 bm3 L n m hA hRun hNotN _hNotM hB
    have h1 := alloc_found_bits bm bm1 n hA
    have hset : bmBit bm2 n = true := runOps_preserves L bm1 bm2 n hRun hNotN h1.2.1
    have h2 := alloc_found_bits bm2 bm3 m hB
    have hne : n ≠ m := by
      intro he
      rw [he] at hset
      rw [hset] at h2
      cases h2.1
    refine ⟨hne, ?_⟩
    simp only [FRAME_SIZE]
    omega
  · intro bm k j hk hlen hj
    have hs := dealloc_isSome bm k hlen
    obtain ⟨bmd, hbmd⟩ := Option.isSome_iff_exists.mp hs
    have hd := dealloc_bits bm bmd k hbmd
    refine ⟨hs, ?_, ?_⟩
    · rw [hbmd, Option.getD_some]
      exact hd.2 hk
    · rw [hbmd, Option.getD_some]
      exact hd.1 j hj

/-- C2 counterexample: the fresh allocator over a region of 66 frames has
`frames_count = 65` but a single bit-array word (`65 / 64 = 1`), so frame 64
was never allocated (its bit reads clear) and yet `dealloc 64` panics on the
out-of-bounds slice index instead of being a harmless no-op. -/
theorem bitmap_dealloc_panics_counterexample :
    bm65.frames_count = 65
    ∧ bm65.map.length = 1
    ∧ bmBit bm65 64 = false
    ∧ bm65.dealloc 64 = none := by
  exact ⟨by decide, by decide, by decide, by decide⟩

/-- Witness for C2's amended theorem: on the fresh 1 MiB allocator the first
two allocations return frames 0 and 1 (distinct addresses), and deallocating
the clear in-array frame 5 keeps it clear and leaves frame 7 untouched. -/
theorem bitmap_alloc_disjoint_witness :
    ((0 : Nat) ≠ 1
      ∧ bm1MiB.frames_start + 0 * FRAME_SIZE ≠ bm1MiB.frames_start + 1 * FRAME_SIZE)
    ∧ ((bm1MiB.dealloc 5).isSome = true
      ∧ bmBit ((bm1MiB.dealloc 5).getD bm1MiB) 5 = false
      ∧ bmBit ((bm1MiB.dealloc 5).getD bm1MiB) 7 = bmBit bm1MiB 7) := by
  exact ⟨bitmap_alloc_disjoint_and_dealloc_noop.1 bm1MiB c5bm1 c5bm1 c2bm3 [] 0 1
      (by decide) rfl (by decide) (by decide) (by decide),
    bitmap_alloc_disjoint_and_dealloc_noop.2 bm1MiB 5 7 (by decide) (by decide) (by decide)⟩

/-! ### Claim C1 — page-table map / virt_to_phys / unmap -/

/-- The present bit through `is_set`. -/
theorem entry_is_present_eq (e : Nat) : entry_is_present e = e.testBit 0 := by
  rw [entry_is_present, is_set_eq]

/-- `write_bit` at a literal `true` is `set_bit`. -/
theorem write_bit_true (w b : Nat) : write_bit w b true = set_bit w b := rfl

/-- `write_bit` at a literal `false` is `clear_bit`. -/
theorem write_bit_false (w b : Nat) : write_bit w b false = clear_bit w b := rfl

/-- An entry built by `make_table_if_not_present` is present, whatever the
stale word and permissions were. -/
theorem table_entry_present (e addr : Nat) (u w nx : Bool) :
    entry_is_present (table_entry e addr u w nx) = true := by
  rw [entry_is_present_eq]
  unfold table_entry set_no_execute set_user set_writable entry_set_addr set_present
  cases u <;> cases w <;> cases nx <;>
  · simp only [write_bit_true, write_bit_false, testBit_set_bit, testBit_clear_bit,
      Nat.testBit_or, Nat.testBit_land, testBit_compl64, testBit_ADDR_BITMASK]
    simp

/-- The leaf entry written by `map` is present. -/
theorem leaf_entry_present (f : Nat) (u w nx : Bool) :
    entry_is_present (leaf_entry f u w nx) = true := by
  rw [entry_is_present_eq]
  unfold leaf_entry set_no_execute set_writable set_user entry_set_addr set_present
  cases u <;> cases w <;> cases nx <;>
  · simp only [write_bit_true, write_bit_false, testBit_set_bit, testBit_clear_bit,
      Nat.testBit_or, Nat.testBit_land, testBit_compl64, testBit_ADDR_BITMASK]
    simp

/-- The address field stored by the leaf entry is the frame address masked to
bits 12..52 — the permission bits never leak into it. -/
theorem leaf_entry_get_addr (f : Nat) (u w nx : Bool) :
    entry_get_addr (leaf_entry f u w nx) = f &&& ADDR_BITMASK := by
  unfold entry_get_addr leaf_entry set_no_execute set_writable set_user entry_set_addr
    set_present
  cases u <;> cases w <;> cases nx <;>
  · apply Nat.eq_of_testBit_eq
    intro i
    simp only [write_bit_true, write_bit_false, Nat.testBit_land, Nat.testBit_or,
      testBit_set_bit, testBit_clear_bit, testBit_compl64, testBit_ADDR_BITMASK]
    by_cases h12 : 12 ≤ i
    · by_cases h52 : i < 52
      · simp [h12, h52, show ¬ (63 = i) by omega, show ¬ (2 = i) by omega,
          show ¬ (1 = i) by omega, show ¬ (0 = i) by omega, show i < 64 by omega]
      · simp [h12, h52]
    · simp [h12]

/-- Decomposition of a successful top-level `make_table_if_not_present`. -/
theorem make_step4_ok (pt : PageTables) (bm : BitMap) (i4 : Nat) (u w nx : Bool)
    (pt4 : PageTables) (bm4 : BitMap) (h : make_step4 pt bm i4 u w nx = some (pt4, bm4)) :
    entry_is_present (pt4.l4 i4) = true ∧ pt4.l2 = pt.l2 ∧ pt4.l1 = pt.l1 := by
  unfold make_step4 at h
  split at h
  case isTrue hp =>
    simp only [Option.some.injEq, Prod.mk.injEq] at h
    obtain ⟨h1, h2⟩ := h
    rw [← h1]
    exact ⟨hp, rfl, rfl⟩
  case isFalse hp =>
    split at h
    case h_1 bm' addr heq =>
      simp only [Option.some.injEq, Prod.mk.injEq] at h
      obtain ⟨h1, h2⟩ := h
      rw [← h1]
      exact ⟨by simp [upd1, table_entry_present], rfl, rfl⟩
    case h_2 heq => cases h

/-- Decomposition of a successful PDP-level `make_table_if_not_present`. -/
theorem make_step3_ok (pt : PageTables) (bm : BitMap) (i4 i3 : Nat) (u w nx : Bool)
    (pt3 : PageTables) (bm3 : BitMap) (h : make_step3 pt bm i4 i3 u w nx = some (pt3, bm3)) :
    entry_is_present (pt3.l3 i4 i3) = true ∧ pt3.l4 = pt.l4 ∧ pt3.l1 = pt.l1 := by
  unfold make_step3 at h
  split at h
  case isTrue hp =>
    simp only [Option.some.injEq, Prod.mk.injEq] at h
    obtain ⟨h1, h2⟩ := h
    rw [← h1]
    exact ⟨hp, rfl, rfl⟩
  case isFalse hp =>
    split at h
    case h_1 bm' addr heq =>
      simp only [Option.some.injEq, Prod.mk.injEq] at h
      obtain ⟨h1, h2⟩ := h
      rw [← h1]
      exact ⟨by simp [upd1, table_entry_present], rfl, rfl⟩
    case h_2 heq => cases h

/-- Decomposition of a successful PD-level `make_table_if_not_present`. -/
theorem make_step2_ok (pt : PageTables) (bm : BitMap) (i4 i3 i2 : Nat) (u w nx : Bool)
    (pt2 : PageTables) (bm2 : BitMap) (h : make_step2 pt bm i4 i3 i2 u w nx = some (pt2, bm2)) :
    entry_is_present (pt2.l2 i4 i3 i2) = true ∧ pt2.l4 = pt.l4 ∧ pt2.l3 = pt.l3 := by
  unfold make_step2 at h
  split at h
  case isTrue hp =>
    simp only [Option.some.injEq, Prod.mk.injEq] at h
    obtain ⟨h1, h2⟩ := h
    rw [← h1]
    exact ⟨hp, rfl, rfl⟩
  case isFalse hp =>
    split at h
    case h_1 bm' addr heq =>
      simp only [Option.some.injEq, Prod.mk.injEq] at h
      obtain ⟨h1, h2⟩ := h
      rw [← h1]
      exact ⟨by simp [upd1, table_entry_present], rfl, rfl⟩
    case h_2 heq => cases h

/-- C1 (amended): after `PageTables::map(a, f, ...)` returns Ok for a frame
address `f` that fits the entry's 40-bit address field (bits 12..52 — in
particular 4 KiB-aligned), `virt_to_phys(a)` returns `Ok(f | (a & 0xFFF))`;
and after a subsequent `unmap(a)` returns Ok, `virt_to_phys(a)` returns
`Err`.  (For a frame-aligned `f` at or above `2^52` the entry's address mask
silently truncates `f`, refuting the claim as stated — see the
counterexample.) -/
theorem pt_map_translate_unmap (pt pt' pt'' : PageTables) (bm bm' : BitMap)
    (a f : Nat) (u w nx : Bool)
    (hf : f &&& ADDR_BITMASK = f)
    (h1 : mapPT pt bm a f u w nx = some (pt', bm'))
    (h2 : unmapPT pt' a = some pt'') :
    virt_to_phys pt' a = some (f ||| (a &&& 0xFFF))
    ∧ virt_to_phys pt'' a = none := by
  unfold mapPT at h1
  by_cases hcan : is_canonical a = true
  case neg =>
    rw [if_neg hcan] at h1
    cases h1
  case pos =>
  rw [if_pos hcan] at h1
  cases hs4 : make_step4 pt bm (pml4_get_idx a) u w nx with
  | none =>
    simp only [hs4] at h1
    cases h1
  | some q4 =>
  obtain ⟨pt4, bm4⟩ := q4
  simp only [hs4] at h1
  cases hs3 : make_step3 pt4 bm4 (pml4_get_idx a) (pdp_get_idx a) u w nx with
  | none =>
    simp only [hs3] at h1
    cases h1
  | some q3 =>
  obtain ⟨pt3, bm3⟩ := q3
  simp only [hs3] at h1
  cases hs2 : make_step2 pt3 bm3 (pml4_get_idx a) (pdp_get_idx a) (pd_get_idx a) u w nx with
  | none =>
    simp only [hs2] at h1
    cases h1
  | some q2 =>
  obtain ⟨pt2, bm2⟩ := q2
  simp only [hs2, Option.some.injEq, Prod.mk.injEq] at h1
  obtain ⟨hpt', hbm'⟩ := h1
  obtain ⟨p4, e42, e41⟩ := make_step4_ok pt bm (pml4_get_idx a) u w nx pt4 bm4 hs4
  obtain ⟨p3, e34, e31⟩ := make_step3_ok pt4 bm4 (pml4_get_idx a) (pdp_get_idx a) u w nx pt3 bm3 hs3
  obtain ⟨p2, e24, e23⟩ := make_step2_ok pt3 bm3 (pml4_get_idx a) (pdp_get_idx a) (pd_get_idx a)
    u w nx pt2 bm2 hs2
  have g4 : entry_is_present (pt2.l4 (pml4_get_idx a)) = true := by
    rw [e24, e34]
    exact p4
  have g3 : entry_is_present (pt2.l3 (pml4_get_idx a) (pdp_get_idx a)) = true := by
    rw [e23]
    exact p3
  subst hpt'
  constructor
  · unfold virt_to_phys get_pt_entry
    rw [if_pos hcan]
    simp [g4, g3, p2, upd1, leaf_entry_present, leaf_entry_get_addr, hf]
  · unfold unmapPT at h2
    cases hge : get_pt_entry
        { pt2 with
          l1 := fun j k m => if j = pml4_get_idx a ∧ k = pdp_get_idx a ∧ m = pd_get_idx a
                             then upd1 (pt2.l1 j k m) (pt_get_idx a) (leaf_entry f u w nx)
                             else pt2.l1 j k m } a with
    | none => rw [hge] at h2; cases h2
    | some e =>
      rw [hge] at h2
      simp only [Option.map_some', Option.some.injEq] at h2
      rw [← h2]
      unfold virt_to_phys get_pt_entry
      rw [if_pos hcan]
      simp [g4, g3, p2, upd1, show entry_is_present 0 = false from by decide]

/-- C1 counterexample: mapping page `0x5000` to the frame-aligned frame
address `2^52` succeeds, but the entry's 40-bit address field silently
truncates the frame address, so `virt_to_phys` returns `Ok(0)` instead of
`Ok(2^52 | (0x5000 & 0xFFF))` — the claim as stated fails for this input. -/
theorem pt_map_translate_counterexample :
    (0x10000000000000 : Nat) % FRAME_SIZE = 0
    ∧ c1badMap.map (fun r => virt_to_phys r.1 0x5000) = some (some 0)
    ∧ some (some ((0x10000000000000 : Nat) ||| (0x5000 &&& 0xFFF)))
      ≠ c1badMap.map (fun r => virt_to_phys r.1 0x5000) := by
  exact ⟨by decide, by decide, by decide⟩

/-- Witness for C1's amended theorem: page `0x5000` mapped to frame `0x20000`
on empty tables over the fresh 1 MiB allocator, then unmapped. -/
theorem pt_map_translate_unmap_witness :
    ((0x20000 : Nat) &&& ADDR_BITMASK = 0x20000)
    ∧ virt_to_phys c1pt1 0x5000 = some (0x20000 ||| (0x5000 &&& 0xFFF))
    ∧ virt_to_phys c1pt2 0x5000 = none := by
  have h := pt_map_translate_unmap ptZero c1pt1 c1pt2 bm1MiB c1bm1 0x5000 0x20000
    false true false (by decide) rfl rfl
  exact ⟨by decide, h.1, h.2⟩

/-! ### Claim C7 — `HeapList::merge` coalescing and idempotence -/

/-- The merge walk emits a first region starting where its accumulator
starts. -/
theorem mergeGo_head (l : List Region) :
    ∀ prev : Region, ∃ s t, mergeGo prev l = ⟨prev.addr, s⟩ :: t := by
  induction l with
  | nil => exact fun prev => ⟨prev.size, [], rfl⟩
  | cons b rest ih =>
    intro prev
    rw [mergeGo]
    by_cases h : prev.end_addr = b.addr
    · rw [if_pos h]
      exact ih ⟨prev.addr, prev.size + b.size⟩
    · rw [if_neg h]
      exact ⟨prev.size, mergeGo b rest, rfl⟩

/-- After the merge walk no two consecutive regions are adjacent. -/
theorem mergeGo_chain (l : List Region) :
    ∀ prev : Region, (mergeGo prev l).Chain' (fun x y => x.end_addr ≠ y.addr) := by
  induction l with
  | nil => exact fun prev => List.chain'_singleton prev
  | cons b rest ih =>
    intro prev
    rw [mergeGo]
    by_cases h : prev.end_addr = b.addr
    · rw [if_pos h]
      exact ih ⟨prev.addr, prev.size + b.size⟩
    · rw [if_neg h]
      rw [List.chain'_cons']
      refine ⟨?_, ih b⟩
      intro y hy
      obtain ⟨s, t, hst⟩ := mergeGo_head rest b
      rw [hst] at hy
      simp only [List.head?_cons, Option.mem_def, Option.some.injEq] at hy
      rw [← hy]
      exact h

/-- The merge walk preserves the total number of bytes tracked. -/
theorem mergeGo_sum (l : List Region) :
    ∀ prev : Region, sumSizes (mergeGo prev l) = prev.size + sumSizes l := by
  induction l with
  | nil =>
    intro prev
    simp [mergeGo, sumSizes]
  | cons b rest ih =>
    intro prev
    rw [mergeGo]
    by_cases h : prev.end_addr = b.addr
    · rw [if_pos h, ih ⟨prev.addr, prev.size + b.size⟩]
      simp [sumSizes]
      omega
    · rw [if_neg h]
      simp only [sumSizes, List.map_cons, List.sum_cons] at ih ⊢
      rw [ih b]

/-- Coverage by a list with an explicit head. -/
theorem covers_cons (r : Region) (l : List Region) (x : Nat) :
    covers (r :: l) x ↔ (r.addr ≤ x ∧ x < r.end_addr) ∨ covers l x := by
  unfold covers
  constructor
  · rintro ⟨s, hs, hsx⟩
    rcases List.mem_cons.mp hs with rfl | hs2
    · exact Or.inl hsx
    · exact Or.inr ⟨s, hs2, hsx⟩
  · rintro (hin | ⟨s, hs, hsx⟩)
    · exact ⟨r, List.mem_cons_self .., hin⟩
    · exact ⟨s, List.mem_cons_of_mem _ hs, hsx⟩

/-- The merge walk covers exactly the addresses covered by the accumulator
and the remaining regions: a pair merged into one node covers the union of
the two. -/
theorem mergeGo_covers (l : List Region) :
    ∀ (prev : Region) (x : Nat),
      covers (mergeGo prev l) x ↔ (prev.addr ≤ x ∧ x < prev.end_addr) ∨ covers l x := by
  induction l with
  | nil =>
    intro prev x
    rw [mergeGo, covers_cons]
  | cons b rest ih =>
    intro prev x
    rw [mergeGo]
    by_cases h : prev.end_addr = b.addr
    · rw [if_pos h, ih ⟨prev.addr, prev.size + b.size⟩ x, covers_cons]
      have hb : b.addr = prev.addr + prev.size := by
        rw [← h]
        rfl
      dsimp only [Region.end_addr]
      constructor
      · rintro (hin | hc)
        · by_cases hx : x < prev.addr + prev.size
          · exact Or.inl ⟨hin.1, hx⟩
          · refine Or.inr (Or.inl ⟨?_, ?_⟩) <;> omega
        · exact Or.inr (Or.inr hc)
      · rintro (hin | hin | hc)
        · exact Or.inl ⟨hin.1, by omega⟩
        · refine Or.inl ⟨?_, ?_⟩ <;> omega
        · exact Or.inr hc
    · rw [if_neg h]
      simp only [covers_cons, ih b x]

/-- On a chain with no adjacent pair the merge walk changes nothing. -/
theorem mergeGo_of_chain (l : List Region) :
    ∀ prev : Region, (prev :: l).Chain' (fun x y => x.end_addr ≠ y.addr) →
      mergeGo prev l = prev :: l := by
  induction l with
  | nil => exact fun prev _ => rfl
  | cons b rest ih =>
    intro prev hch
    rw [List.chain'_cons] at hch
    rw [mergeGo, if_neg hch.1, ih b hch.2]

/-- C7: one pass of `HeapList::merge` coalesces every pair of consecutive
regions `A, B` with `A.end_addr() == B.addr` — including chains of three or
more adjacent regions — into single nodes: afterwards no two consecutive
regions are adjacent, the total tracked size is preserved, and exactly the
same addresses are covered (each merged node covers the union of the regions
it absorbed, sizes summed, the absorbed nodes freed from the list); and
`merge` is idempotent — running it again changes nothing.  This is proved for
every region sequence, in particular every address-sorted one. -/
theorem heap_list_merge_coalesces (l : List Region) :
    (mergeRegions l).Chain' (fun x y => x.end_addr ≠ y.addr)
    ∧ sumSizes (mergeRegions l) = sumSizes l
    ∧ (∀ x, covers (mergeRegions l) x ↔ covers l x)
    ∧ mergeRegions (mergeRegions l) = mergeRegions l := by
  cases l with
  | nil => exact ⟨List.chain'_nil, rfl, fun x => Iff.rfl, rfl⟩
  | cons a rest =>
    have hchain := mergeGo_chain rest a
    refine ⟨hchain, ?_, ?_, ?_⟩
    · rw [mergeRegions, mergeGo_sum]
      simp [sumSizes]
    · intro x
      rw [mergeRegions, mergeGo_covers, covers_cons]
    · have hchain2 := hchain
      obtain ⟨s, t, hst⟩ := mergeGo_head rest a
      rw [mergeRegions]
      rw [hst] at hchain2 ⊢
      rw [mergeRegions]
      exact mergeGo_of_chain t ⟨a.addr, s⟩ hchain2
